import Mathlib

/-!
Shallow embedding of the browser-automation-extension repository
(Node.js dispatch server plus Chrome extension), covering:

* `managers/TaskQueue.js` — the FIFO task queue;
* `managers/TabManager.js` — the tab/window state store and its
  write-coalescing persistence flags;
* `index.js` — the dispatch endpoints (`/add-task`, `/switch-tab`,
  `/report-result`, `/report-result/error`, `/sync-tabs`) and the
  rendezvous table `pendingTasks` with `waitForTaskCompletion`.

JavaScript numbers used as Chrome tab/window ids are modelled as `Int`
(the code only compares them with `===` and tests truthiness, where `0`
is falsy).  Timestamps (`Date.now()` / `new Date().toISOString()`) are
modelled as an abstract `Nat` clock passed in by the caller.  Optional /
possibly-`undefined` request fields are `Option`s.
-/

namespace Automation

/-- A task object as built by `index.js` (`/add-task`, `/switch-tab`,
`/execute-js`): `taskId`, `command`, and the optional `tabId`, `url`,
`jsFunction` fields (`null` is `none`). -/
structure Task where
  taskId : String
  command : String
  tabId : Option Int
  url : Option String
  jsFunction : Option String
deriving DecidableEq, Repr

namespace TaskQueue

/-- `TaskQueue.addTask` (`managers/TaskQueue.js`): `this.queue.push(task)` —
append at the tail. -/
def addTask (q : List Task) (t : Task) : List Task :=
  q ++ [t]

/-- `TaskQueue.getNextTask` (`managers/TaskQueue.js`): return `null` if the
queue is empty, else `this.queue.shift()` — remove and return the head.
The result pairs the returned task (or `none` for `null`) with the queue
left behind. -/
def getNextTask (q : List Task) : Option Task × List Task :=
  match q with
  | [] => (none, q)
  | t :: rest => (some t, rest)

/-- `TaskQueue.hasTask`: `this.queue.some(predicate)`. -/
def hasTask (q : List Task) (p : Task → Bool) : Bool :=
  q.any p

/-- Drain a queue by repeated `getNextTask` calls, collecting the returned
tasks in order, until the empty marker is returned.  `drainAux` carries a
fuel argument bounding the number of pulls; `drain` supplies enough fuel
to empty the queue. -/
def drainAux : Nat → List Task → List Task
  | 0, _ => []
  | fuel + 1, q =>
    match getNextTask q with
    | (none, _) => []
    | (some t, rest) => t :: drainAux fuel rest

/-- Pull from a queue until `getNextTask` reports empty, collecting the
tasks in pull order. -/
def drain (q : List Task) : List Task :=
  drainAux q.length q

theorem drainAux_eq (q : List Task) : ∀ fuel, q.length ≤ fuel → drainAux fuel q = q := by
  induction q with
  | nil =>
    intro fuel _
    cases fuel <;> simp [drainAux, getNextTask]
  | cons t rest ih =>
    intro fuel hfuel
    cases fuel with
    | zero => simp at hfuel
    | succ n =>
      simp only [List.length_cons, Nat.succ_le_succ_iff] at hfuel
      simp [drainAux, getNextTask, ih n hfuel]

theorem submitAll_eq (ts : List Task) :
    ∀ acc : List Task, ts.foldl TaskQueue.addTask acc = acc ++ ts := by
  induction ts with
  | nil => intro acc; simp
  | cons t rest ih => intro acc; simp [TaskQueue.addTask, ih]

end TaskQueue

/-- C4: the task queue is strictly FIFO.  For every sequence of submissions
(`addTask` in order), draining the queue with repeated `getNextTask` calls
returns exactly the submitted tasks in submission order — so if task A is
submitted before task B, the pull returning A precedes the pull returning
B.  Pulling from an empty queue returns the empty marker (`none`, the
queue untouched), not an error. -/
theorem taskQueue_fifo_order :
    ∀ ts : List Task, TaskQueue.drain (ts.foldl TaskQueue.addTask []) = ts ∧
      TaskQueue.getNextTask [] = (none, []) := by
  intro ts
  constructor
  · rw [TaskQueue.submitAll_eq, List.nil_append, TaskQueue.drain,
      TaskQueue.drainAux_eq ts ts.length (Nat.le_refl _)]
  · rfl


/-- A tracked tab record as stored in `this.openedTabs`
(`managers/TabManager.js`). -/
structure TrackedTab where
  tabId : Int
  windowId : Int
  url : String
  openedAt : Nat
  lastUpdated : Nat
deriving DecidableEq, Repr

/-- A tracked window record as stored in `this.openedWindows`
(`managers/TabManager.js`): a window id and the list of tab ids
associated with it. -/
structure TrackedWindow where
  windowId : Int
  tabs : List Int
  openedAt : Nat
deriving DecidableEq, Repr

/-- The collection part of the `TabManager` state: `this.openedTabs` and
`this.openedWindows`.  The persistence flags `saveInProgress` /
`saveQueued` and the `fs.writeFile` write-back only touch the file
mirror, never these collections; they are modelled separately below
(`SaveState`), so the collection mutators here carry exactly the
in-memory effect of the corresponding methods. -/
structure TMState where
  openedTabs : List TrackedTab
  openedWindows : List TrackedWindow
deriving DecidableEq, Repr

/-- Apply `f` to the first element satisfying `p`, leaving the rest of
the list unchanged.  This is the effect of the JavaScript idiom
`const x = arr.find(p); mutate(x)` (or `findIndex` plus an indexed
assignment) on an array. -/
def updateFirst (p : α → Bool) (f : α → α) : List α → List α
  | [] => []
  | x :: xs => if p x then f x :: xs else x :: updateFirst p f xs

/-- Remove the first element satisfying `p`, leaving the rest unchanged:
the effect of `arr.splice(arr.findIndex(p), 1)` when a match exists. -/
def removeFirst (p : α → Bool) : List α → List α
  | [] => []
  | x :: xs => if p x then xs else x :: removeFirst p xs

/-- An entry of the tab list pushed by the extension to `/sync-tabs`,
and the argument shape of `TabManager.replaceAllTabs`. -/
structure SyncTab where
  tabId : Int
  windowId : Int
  url : String
deriving DecidableEq, Repr

namespace TabManager

/-- `TabManager.associateTabWithWindow(tabId, windowId)`: find the window
with this `windowId`; if found, push `tabId` into its `tabs` unless
already present; otherwise push a brand-new window record holding just
this tab.  `now` stands for `new Date().toISOString()`. -/
def associateTabWithWindow (now : Nat) (tabId windowId : Int) (s : TMState) : TMState :=
  if s.openedWindows.any (fun w => w.windowId == windowId) then
    let ws := updateFirst (fun w => w.windowId == windowId)
      (fun w => if tabId ∈ w.tabs then w else { w with tabs := w.tabs ++ [tabId] })
      s.openedWindows
    { s with openedWindows := ws }
  else
    let ws := s.openedWindows ++ [{ windowId := windowId, tabs := [tabId], openedAt := now }]
    { s with openedWindows := ws }

/-- `TabManager.addOrUpdateTab(tabId, windowId, url)`: if a tab with this
`tabId` exists (`findIndex`), overwrite its `url`, `windowId` and
`lastUpdated` in place; otherwise push a new record.  Then update the
window association and schedule a save (the save only touches the
persistence flags, modelled by `SaveState` below). -/
def addOrUpdateTab (now : Nat) (tabId windowId : Int) (url : String) (s : TMState) : TMState :=
  let tabs' :=
    if s.openedTabs.any (fun t => t.tabId == tabId) then
      updateFirst (fun t => t.tabId == tabId)
        (fun t => { t with url := url, windowId := windowId, lastUpdated := now })
        s.openedTabs
    else
      s.openedTabs ++
        [{ tabId := tabId, windowId := windowId, url := url, openedAt := now, lastUpdated := now }]
  associateTabWithWindow now tabId windowId { s with openedTabs := tabs' }

/-- `TabManager.removeClosedTab(tabId)`: if no tab with this id exists,
warn and do nothing.  Otherwise splice the (first) matching record out of
`openedTabs`, filter the id out of the `tabs` of the owning window (the
window whose `windowId` equals the removed record's), and splice that
window out too when its `tabs` list becomes empty. -/
def removeClosedTab (tabId : Int) (s : TMState) : TMState :=
  match s.openedTabs.find? (fun t => t.tabId == tabId) with
  | none => s
  | some removedTab =>
    let tabs' := removeFirst (fun t => t.tabId == tabId) s.openedTabs
    let windows' :=
      match s.openedWindows.find? (fun w => w.windowId == removedTab.windowId) with
      | none => s.openedWindows
      | some w =>
        if w.tabs.filter (fun id => id != tabId) = [] then
          removeFirst (fun w2 => w2.windowId == removedTab.windowId) s.openedWindows
        else
          updateFirst (fun w2 => w2.windowId == removedTab.windowId)
            (fun w2 => { w2 with tabs := w2.tabs.filter (fun id => id != tabId) })
            s.openedWindows
    { openedTabs := tabs', openedWindows := windows' }

/-- The record pushed for each entry of `replaceAllTabs` (and by the
insert branch of `addOrUpdateTab`). -/
def mkTab (now : Nat) (e : SyncTab) : TrackedTab :=
  { tabId := e.tabId, windowId := e.windowId, url := e.url, openedAt := now, lastUpdated := now }

/-- `TabManager.replaceAllTabs(tabs)`: clear `openedTabs` and
`openedWindows`, then for each supplied entry push a fresh tab record and
run the window-association logic (the source inlines a copy of
`associateTabWithWindow`'s body). -/
def replaceAllTabs (now : Nat) (tabs : List SyncTab) (_s : TMState) : TMState :=
  tabs.foldl
    (fun acc e =>
      associateTabWithWindow now e.tabId e.windowId
        { acc with openedTabs := acc.openedTabs ++ [mkTab now e] })
    { openedTabs := [], openedWindows := [] }

/-- `TabManager.getAllOpenedTabs()`. -/
def getAllOpenedTabs (s : TMState) : List TrackedTab :=
  s.openedTabs

end TabManager

section UpdateFirstLemmas

variable {α : Type} {β : Type}

theorem mem_of_mem_updateFirst {p : α → Bool} {f : α → α} :
    ∀ {l : List α} {x : α}, x ∈ updateFirst p f l →
      x ∈ l ∨ ∃ y, y ∈ l ∧ p y = true ∧ x = f y := by
  intro l
  induction l with
  | nil => intro x hx; simp [updateFirst] at hx
  | cons a as ih =>
    intro x hx
    by_cases hp : p a
    · simp only [updateFirst, hp, if_pos, List.mem_cons] at hx
      rcases hx with h | h
      · exact Or.inr ⟨a, List.mem_cons_self a as, hp, h⟩
      · exact Or.inl (List.mem_cons_of_mem a h)
    · simp only [updateFirst, Bool.not_eq_true] at hp
      simp only [updateFirst, hp, Bool.false_eq_true, if_false, List.mem_cons] at hx
      rcases hx with h | h
      · exact Or.inl (h ▸ List.mem_cons_self a as)
      · rcases ih h with h2 | ⟨y, hy, hpy, hxy⟩
        · exact Or.inl (List.mem_cons_of_mem a h2)
        · exact Or.inr ⟨y, List.mem_cons_of_mem a hy, hpy, hxy⟩

theorem self_or_image_mem_updateFirst {p : α → Bool} {f : α → α} :
    ∀ {l : List α} {y : α}, y ∈ l →
      y ∈ updateFirst p f l ∨ f y ∈ updateFirst p f l := by
  intro l
  induction l with
  | nil => intro y hy; simp at hy
  | cons a as ih =>
    intro y hy
    by_cases hp : p a
    · simp only [updateFirst, hp, if_pos]
      rcases List.mem_cons.mp hy with h | h
      · exact Or.inr (h ▸ List.mem_cons_self _ _)
      · exact Or.inl (List.mem_cons_of_mem _ h)
    · simp only [updateFirst, Bool.not_eq_true] at hp
      simp only [updateFirst, hp, Bool.false_eq_true, if_false]
      rcases List.mem_cons.mp hy with h | h
      · exact Or.inl (h ▸ List.mem_cons_self _ _)
      · rcases ih h with h2 | h2
        · exact Or.inl (List.mem_cons_of_mem _ h2)
        · exact Or.inr (List.mem_cons_of_mem _ h2)

theorem map_updateFirst {p : α → Bool} {f : α → α} {g : α → β} :
    ∀ {l : List α}, (∀ y ∈ l, p y = true → g (f y) = g y) →
      (updateFirst p f l).map g = l.map g := by
  intro l
  induction l with
  | nil => intro _; rfl
  | cons a as ih =>
    intro h
    by_cases hp : p a
    · simp only [updateFirst, hp, if_pos, List.map_cons]
      rw [h a (List.mem_cons_self _ _) hp]
    · simp only [updateFirst, Bool.not_eq_true] at hp
      simp only [updateFirst, hp, Bool.false_eq_true, if_false, List.map_cons]
      rw [ih (fun y hy hpy => h y (List.mem_cons_of_mem a hy) hpy)]

theorem updateFirst_of_first_match {p : α → Bool} {f : α → α} :
    ∀ {l : List α}, l.any p = true →
      ∃ y, y ∈ l ∧ p y = true ∧ f y ∈ updateFirst p f l := by
  intro l
  induction l with
  | nil => intro h; simp at h
  | cons a as ih =>
    intro h
    by_cases hp : p a
    · exact ⟨a, List.mem_cons_self _ _, hp, by simp [updateFirst, hp]⟩
    · simp only [updateFirst, Bool.not_eq_true] at hp
      simp only [List.any_cons, hp, Bool.false_or] at h
      rcases ih h with ⟨y, hy, hpy, hmem⟩
      exact ⟨y, List.mem_cons_of_mem a hy, hpy,
        by simp only [updateFirst, hp, Bool.false_eq_true, if_false]
           exact List.mem_cons_of_mem a hmem⟩

theorem sublist_removeFirst {p : α → Bool} :
    ∀ l : List α, List.Sublist (removeFirst p l) l := by
  intro l
  induction l with
  | nil => simp [removeFirst]
  | cons a as ih =>
    by_cases hp : p a
    · simp only [removeFirst, hp, if_pos]
      exact List.sublist_cons_self a as
    · simp only [removeFirst, Bool.not_eq_true] at hp
      simp only [removeFirst, hp, Bool.false_eq_true, if_false]
      exact List.Sublist.cons₂ a ih

theorem mem_of_mem_removeFirst {p : α → Bool} {l : List α} {x : α}
    (hx : x ∈ removeFirst p l) : x ∈ l :=
  (sublist_removeFirst l).mem hx

theorem mem_removeFirst_of_neg {p : α → Bool} :
    ∀ {l : List α} {x : α}, x ∈ l → p x = false → x ∈ removeFirst p l := by
  intro l
  induction l with
  | nil => intro x hx _; simp at hx
  | cons a as ih =>
    intro x hx hpx
    by_cases hp : p a
    · simp only [removeFirst, hp, if_pos]
      rcases List.mem_cons.mp hx with h | h
      · rw [h] at hpx; rw [hpx] at hp; cases hp
      · exact h
    · simp only [removeFirst, Bool.not_eq_true] at hp
      simp only [removeFirst, hp, Bool.false_eq_true, if_false]
      rcases List.mem_cons.mp hx with h | h
      · exact h ▸ List.mem_cons_self _ _
      · exact List.mem_cons_of_mem a (ih h hpx)

/-- In a list whose projections under `g` are distinct, every survivor
of removing the first element projecting to `c` projects away from
`c`. -/
theorem proj_ne_of_mem_removeFirst [DecidableEq β] {g : α → β} {c : β} :
    ∀ {l : List α} {x : α}, (l.map g).Nodup →
      x ∈ removeFirst (fun z => g z == c) l → g x ≠ c := by
  intro l
  induction l with
  | nil => intro x _ hx; simp [removeFirst] at hx
  | cons a as ih =>
    intro x hnd hx
    simp only [List.map_cons, List.nodup_cons] at hnd
    by_cases hp : g a == c
    · simp only [removeFirst, hp, if_pos] at hx
      intro hc
      have hac : g a = c := by simpa using hp
      exact hnd.1 (hac ▸ hc ▸ List.mem_map_of_mem g hx)
    · simp only [Bool.not_eq_true] at hp
      simp only [removeFirst, hp, Bool.false_eq_true, if_false, List.mem_cons] at hx
      rcases hx with h | h
      · intro hc; rw [← h] at hp; rw [hc] at hp; simp at hp
      · exact ih hnd.2 h

/-- In a list with distinct `g`-projections, a member of
`updateFirst (g ?= c) f l` is either an untouched member projecting away
from `c`, or the image under `f` of the unique member projecting to
`c`. -/
theorem mem_updateFirst_nodup [DecidableEq β] {g : α → β} {c : β} {f : α → α} :
    ∀ {l : List α} {x : α}, (l.map g).Nodup →
      x ∈ updateFirst (fun z => g z == c) f l →
      (x ∈ l ∧ g x ≠ c) ∨ ∃ y, y ∈ l ∧ g y = c ∧ x = f y := by
  intro l
  induction l with
  | nil => intro x _ hx; simp [updateFirst] at hx
  | cons a as ih =>
    intro x hnd hx
    simp only [List.map_cons, List.nodup_cons] at hnd
    by_cases hp : g a == c
    · have hac : g a = c := by simpa using hp
      simp only [updateFirst, hp, if_pos, List.mem_cons] at hx
      rcases hx with h | h
      · exact Or.inr ⟨a, List.mem_cons_self _ _, hac, h⟩
      · refine Or.inl ⟨List.mem_cons_of_mem a h, ?_⟩
        intro hc
        exact hnd.1 (hac ▸ hc ▸ List.mem_map_of_mem g h)
    · simp only [Bool.not_eq_true] at hp
      simp only [updateFirst, hp, Bool.false_eq_true, if_false, List.mem_cons] at hx
      rcases hx with h | h
      · refine Or.inl ⟨h ▸ List.mem_cons_self _ _, ?_⟩
        intro hc; rw [← h] at hp; rw [hc] at hp; simp at hp
      · rcases ih hnd.2 h with ⟨h1, h2⟩ | ⟨y, hy, hgy, hxy⟩
        · exact Or.inl ⟨List.mem_cons_of_mem a h1, h2⟩
        · exact Or.inr ⟨y, List.mem_cons_of_mem a hy, hgy, hxy⟩

theorem mem_updateFirst_of_proj_ne [DecidableEq β] {g : α → β} {c : β} {f : α → α} :
    ∀ {l : List α} {x : α}, x ∈ l → g x ≠ c →
      x ∈ updateFirst (fun z => g z == c) f l := by
  intro l
  induction l with
  | nil => intro x hx _; simp at hx
  | cons a as ih =>
    intro x hx hgx
    by_cases hp : g a == c
    · simp only [updateFirst, hp, if_pos, List.mem_cons]
      rcases List.mem_cons.mp hx with h | h
      · exfalso; apply hgx; rw [h]; simpa using hp
      · exact Or.inr h
    · simp only [Bool.not_eq_true] at hp
      simp only [updateFirst, hp, Bool.false_eq_true, if_false, List.mem_cons]
      rcases List.mem_cons.mp hx with h | h
      · exact Or.inl h
      · exact Or.inr (ih h hgx)

theorem image_mem_updateFirst_nodup [DecidableEq β] {g : α → β} {c : β} {f : α → α} :
    ∀ {l : List α} {y : α}, (l.map g).Nodup → y ∈ l → g y = c →
      f y ∈ updateFirst (fun z => g z == c) f l := by
  intro l
  induction l with
  | nil => intro y _ hy _; simp at hy
  | cons a as ih =>
    intro y hnd hy hgy
    simp only [List.map_cons, List.nodup_cons] at hnd
    by_cases hp : g a == c
    · have hac : g a = c := by simpa using hp
      rcases List.mem_cons.mp hy with h | h
      · simp [updateFirst, hp, h]
      · exfalso
        exact hnd.1 (hac ▸ hgy ▸ List.mem_map_of_mem g h)
    · simp only [Bool.not_eq_true] at hp
      simp only [updateFirst, hp, Bool.false_eq_true, if_false, List.mem_cons]
      rcases List.mem_cons.mp hy with h | h
      · exfalso; rw [← h] at hp; rw [hgy] at hp; simp at hp
      · exact Or.inr (ih hnd.2 h hgy)

theorem find?_proj_eq_some_of_nodup [DecidableEq β] {g : α → β} {c : β} :
    ∀ {l : List α} {y : α}, (l.map g).Nodup → y ∈ l → g y = c →
      l.find? (fun z => g z == c) = some y := by
  intro l
  induction l with
  | nil => intro y _ hy _; simp at hy
  | cons a as ih =>
    intro y hnd hy hgy
    simp only [List.map_cons, List.nodup_cons] at hnd
    by_cases hp : g a == c
    · have hac : g a = c := by simpa using hp
      rcases List.mem_cons.mp hy with h | h
      · simp [List.find?, hp, h]
      · exfalso
        exact hnd.1 (hac ▸ hgy ▸ List.mem_map_of_mem g h)
    · simp only [Bool.not_eq_true] at hp
      rcases List.mem_cons.mp hy with h | h
      · exfalso; rw [← h] at hp; rw [hgy] at hp; simp at hp
      · simp only [List.find?, hp]
        exact ih hnd.2 h hgy

theorem eq_of_proj_eq_nodup {g : α → β} {l : List α} {a b : α}
    (hnd : (l.map g).Nodup) (ha : a ∈ l) (hb : b ∈ l) (h : g a = g b) : a = b :=
  List.inj_on_of_nodup_map hnd ha hb h

theorem not_mem_map_of_any_eq_false [DecidableEq β] {g : α → β} {c : β} {l : List α}
    (h : l.any (fun z => g z == c) = false) : c ∉ l.map g := by
  intro hc
  rcases List.mem_map.mp hc with ⟨x, hx, hgx⟩
  have := List.any_eq_false.mp h x hx
  rw [hgx] at this
  simp at this

end UpdateFirstLemmas

/-- The bidirectional membership invariant claimed for the tab/window
store: every tab id in a tracked window's tab set has a matching tracked
tab whose `windowId` equals that window's id; every tracked tab's
`windowId` names a tracked window whose tab set contains the tab's id;
and no tracked window has an empty tab set. -/
def TabWindowInvariant (s : TMState) : Prop :=
  (∀ w ∈ s.openedWindows, ∀ tid ∈ w.tabs,
      ∃ t ∈ s.openedTabs, t.tabId = tid ∧ t.windowId = w.windowId) ∧
  (∀ t ∈ s.openedTabs,
      ∃ w ∈ s.openedWindows, w.windowId = t.windowId ∧ t.tabId ∈ w.tabs) ∧
  (∀ w ∈ s.openedWindows, w.tabs ≠ [])

instance (s : TMState) : Decidable (TabWindowInvariant s) := by
  unfold TabWindowInvariant
  exact inferInstance

/-- The membership invariant together with the key-uniqueness conditions
of the data model: `tabId` is a unique key of the tab collection and
`windowId` a unique key of the window collection. -/
def StoreWF (s : TMState) : Prop :=
  TabWindowInvariant s ∧ (s.openedTabs.map TrackedTab.tabId).Nodup ∧
    (s.openedWindows.map TrackedWindow.windowId).Nodup

theorem associate_openedTabs (now : Nat) (a b : Int) (s : TMState) :
    (TabManager.associateTabWithWindow now a b s).openedTabs = s.openedTabs := by
  unfold TabManager.associateTabWithWindow
  split <;> rfl

theorem associate_windowIds (now : Nat) (a b : Int) (s : TMState) :
    ∀ w ∈ (TabManager.associateTabWithWindow now a b s).openedWindows,
      w.windowId ∈ s.openedWindows.map TrackedWindow.windowId ∨ w.windowId = b := by
  intro w hw
  unfold TabManager.associateTabWithWindow at hw
  by_cases hany : s.openedWindows.any (fun w => w.windowId == b)
  · simp only [hany, if_pos] at hw
    rcases mem_of_mem_updateFirst hw with h | ⟨y, hy, _, hwy⟩
    · exact Or.inl (List.mem_map_of_mem _ h)
    · left
      have : w.windowId = y.windowId := by
        rw [hwy]; by_cases hmem : a ∈ y.tabs <;> simp [hmem]
      exact this ▸ List.mem_map_of_mem _ hy
  · simp only [Bool.not_eq_true] at hany
    simp only [hany, Bool.false_eq_true, if_false] at hw
    rcases List.mem_append.mp hw with h | h
    · exact Or.inl (List.mem_map_of_mem _ h)
    · simp at h
      exact Or.inr (by rw [h])

theorem replaceAll_foldl_tabs (now : Nat) :
    ∀ (L : List SyncTab) (acc : TMState),
      (L.foldl
          (fun acc e =>
            TabManager.associateTabWithWindow now e.tabId e.windowId
              { acc with openedTabs := acc.openedTabs ++ [TabManager.mkTab now e] })
          acc).openedTabs = acc.openedTabs ++ L.map (TabManager.mkTab now) := by
  intro L
  induction L with
  | nil => intro acc; simp
  | cons e L ih =>
    intro acc
    simp only [List.foldl_cons, List.map_cons]
    rw [ih, associate_openedTabs]
    simp

theorem replaceAll_foldl_windows (now : Nat) :
    ∀ (L : List SyncTab) (acc : TMState),
      ∀ w ∈ (L.foldl
          (fun acc e =>
            TabManager.associateTabWithWindow now e.tabId e.windowId
              { acc with openedTabs := acc.openedTabs ++ [TabManager.mkTab now e] })
          acc).openedWindows,
        w.windowId ∈ acc.openedWindows.map TrackedWindow.windowId ∨
          ∃ e ∈ L, w.windowId = e.windowId := by
  intro L
  induction L with
  | nil => intro acc w hw; exact Or.inl (List.mem_map_of_mem _ hw)
  | cons e L ih =>
    intro acc w hw
    simp only [List.foldl_cons] at hw
    rcases ih _ w hw with h | ⟨e2, he2, hwe⟩
    · rcases List.mem_map.mp h with ⟨w2, hw2, hw2e⟩
      rcases associate_windowIds now e.tabId e.windowId
          { acc with openedTabs := acc.openedTabs ++ [TabManager.mkTab now e] } w2 hw2 with
        h2 | h2
      · exact Or.inl (hw2e ▸ h2)
      · exact Or.inr ⟨e, List.mem_cons_self e L, by rw [← hw2e, h2]⟩
    · exact Or.inr ⟨e2, List.mem_cons_of_mem e he2, hwe⟩

/-- C6: `replaceAllTabs` is strictly last-write-wins.  The resulting
state does not depend on the prior state in any way (it equals the
rebuild from the empty store); the resulting tab collection is exactly
the supplied list, record for record; every resulting window is named by
some supplied entry; and a resync following another resync yields
exactly the rebuild from the second list alone. -/
theorem replaceAll_last_write_wins :
    ∀ (s s' : TMState) (now : Nat) (L : List SyncTab),
      TabManager.replaceAllTabs now L s = TabManager.replaceAllTabs now L s' ∧
      (TabManager.replaceAllTabs now L s).openedTabs = L.map (TabManager.mkTab now) ∧
      (∀ w ∈ (TabManager.replaceAllTabs now L s).openedWindows,
        ∃ e ∈ L, w.windowId = e.windowId) ∧
      ∀ (now1 : Nat) (L1 : List SyncTab),
        TabManager.replaceAllTabs now L (TabManager.replaceAllTabs now1 L1 s') =
          TabManager.replaceAllTabs now L { openedTabs := [], openedWindows := [] } := by
  intro s s' now L
  refine ⟨rfl, ?_, ?_, fun _ _ => rfl⟩
  · rw [TabManager.replaceAllTabs, replaceAll_foldl_tabs]
    simp
  · intro w hw
    rw [TabManager.replaceAllTabs] at hw
    rcases replaceAll_foldl_windows now L { openedTabs := [], openedWindows := [] } w hw with
      h | h
    · simp at h
    · exact h

/-- C6 witness: the theorem at the spec's own concrete example — resync
with tab 1/window 1 and then with tab 2/window 2 from an arbitrary-ish
prior state, leaving exactly the records of the second list. -/
theorem replaceAll_last_write_wins_witness :
    TabManager.replaceAllTabs 7 [⟨2, 2, "b"⟩]
        (TabManager.replaceAllTabs 3 [⟨1, 1, "a"⟩] { openedTabs := [], openedWindows := [] }) =
      TabManager.replaceAllTabs 7 [⟨2, 2, "b"⟩] { openedTabs := [], openedWindows := [] } ∧
    (TabManager.replaceAllTabs 7 [⟨2, 2, "b"⟩]
        { openedTabs := [], openedWindows := [] }).openedTabs =
      [{ tabId := 2, windowId := 2, url := "b", openedAt := 7, lastUpdated := 7 }] :=
  ⟨(replaceAll_last_write_wins { openedTabs := [], openedWindows := [] }
      { openedTabs := [], openedWindows := [] } 7 [⟨2, 2, "b"⟩]).2.2.2 3 [⟨1, 1, "a"⟩],
   (replaceAll_last_write_wins { openedTabs := [], openedWindows := [] }
      { openedTabs := [], openedWindows := [] } 7 [⟨2, 2, "b"⟩]).2.1⟩

/-- C5 counterexample: the mutating operations do not all preserve the
bidirectional membership invariant.  Starting from the empty store,
`addOrUpdateTab 1 1 "a"` yields an invariant-satisfying state, but a
second `addOrUpdateTab` for the same tab with a different window
(`addOrUpdateTab 1 2 "b"`) updates the tab's `windowId` to 2 and
registers it with window 2 without detaching it from window 1, so window
1 still lists tab 1 while tab 1's record names window 2 — the invariant
fails afterwards. -/
theorem addOrUpdateTab_breaks_invariant :
    TabWindowInvariant
      (TabManager.addOrUpdateTab 0 1 1 "a" { openedTabs := [], openedWindows := [] }) ∧
    ¬ TabWindowInvariant
      (TabManager.addOrUpdateTab 5 1 2 "b"
        (TabManager.addOrUpdateTab 0 1 1 "a" { openedTabs := [], openedWindows := [] })) := by
  constructor
  · decide
  · decide

instance (s : TMState) : Decidable (StoreWF s) := by
  unfold StoreWF
  exact inferInstance

/-- Appending a fresh tab record (a tab id not yet tracked) and then
running the window association preserves well-formedness.  This is the
insert branch of `addOrUpdateTab`, and also the per-entry step of
`replaceAllTabs`. -/
theorem storeWF_insert (now : Nat) (tid wid : Int) (newTab : TrackedTab)
    (hid : newTab.tabId = tid) (hwid : newTab.windowId = wid) (s : TMState)
    (hwf : StoreWF s) (hnot : tid ∉ s.openedTabs.map TrackedTab.tabId) :
    StoreWF (TabManager.associateTabWithWindow now tid wid
      { s with openedTabs := s.openedTabs ++ [newTab] }) := by
  obtain ⟨⟨hinv1, hinv2, hinv3⟩, hndT, hndW⟩ := hwf
  have hmapT : ((s.openedTabs ++ [newTab]).map TrackedTab.tabId).Nodup := by
    rw [List.map_append]
    simp only [List.map_cons, List.map_nil, hid]
    rw [List.nodup_append]
    exact ⟨hndT, List.nodup_singleton tid, by
      intro a ha hb
      simp only [List.mem_singleton] at hb
      exact hnot (hb ▸ ha)⟩
  unfold TabManager.associateTabWithWindow
  by_cases hany : s.openedWindows.any (fun w => w.windowId == wid)
  · simp only [hany, if_pos]
    set wf := fun w : TrackedWindow =>
      if tid ∈ w.tabs then w else { w with tabs := w.tabs ++ [tid] } with hwf_def
    have hwf_id : ∀ w : TrackedWindow, (wf w).windowId = w.windowId := by
      intro w
      by_cases h : tid ∈ w.tabs <;> simp [hwf_def, h]
    have hwf_tabs : ∀ (w : TrackedWindow) (x : Int), x ∈ w.tabs → x ∈ (wf w).tabs := by
      intro w x hx
      by_cases h : tid ∈ w.tabs <;> simp [hwf_def, h, hx]
    have hwf_tid : ∀ w : TrackedWindow, tid ∈ (wf w).tabs := by
      intro w
      by_cases h : tid ∈ w.tabs <;> simp [hwf_def, h]
    have hmapW : ((updateFirst (fun w => w.windowId == wid) wf s.openedWindows).map
        TrackedWindow.windowId).Nodup := by
      rw [map_updateFirst (fun y _ _ => hwf_id y)]
      exact hndW
    refine ⟨⟨?_, ?_, ?_⟩, hmapT, hmapW⟩
    · intro w' hw' tid' htid'
      rcases mem_updateFirst_nodup hndW hw' with ⟨hmem, _⟩ | ⟨y, hy, hywid, hw'y⟩
      · rcases hinv1 w' hmem tid' htid' with ⟨t, ht, htt⟩
        exact ⟨t, List.mem_append_left _ ht, htt⟩
      · rw [hw'y] at htid' ⊢
        by_cases hcase : tid' ∈ y.tabs
        · rcases hinv1 y hy tid' hcase with ⟨t, ht, htt1, htt2⟩
          exact ⟨t, List.mem_append_left _ ht, htt1, by rw [hwf_id]; exact htt2⟩
        · have : tid' = tid := by
            by_cases h2 : tid ∈ y.tabs
            · simp [hwf_def, h2] at htid'; exact absurd htid' hcase
            · simp [hwf_def, h2, List.mem_append] at htid'
              rcases htid' with h | h
              · exact absurd h hcase
              · exact h
          refine ⟨newTab, List.mem_append_right _ (List.mem_singleton_self _), by rw [hid, this],
            ?_⟩
          rw [hwid, hwf_id, hywid]
    · intro t ht
      rcases List.mem_append.mp ht with h | h
      · rcases hinv2 t h with ⟨w, hw, hw1, hw2⟩
        rcases self_or_image_mem_updateFirst (p := fun w => w.windowId == wid) (f := wf) hw with
          h2 | h2
        · exact ⟨w, h2, hw1, hw2⟩
        · exact ⟨wf w, h2, by rw [hwf_id]; exact hw1, hwf_tabs w _ hw2⟩
      · simp only [List.mem_singleton] at h
        subst h
        rcases updateFirst_of_first_match (f := wf) hany with ⟨y, hy, hywid, hmem⟩
        refine ⟨wf y, hmem, ?_, by rw [hid]; exact hwf_tid y⟩
        rw [hwf_id, hwid]
        have hy2 : y.windowId = wid := by simpa using hywid
        rw [hy2]
    · intro w' hw'
      rcases mem_of_mem_updateFirst hw' with h | ⟨y, hy, _, hw'y⟩
      · exact hinv3 w' h
      · rw [hw'y]
        intro hnil
        have := hwf_tid y
        rw [hnil] at this
        simp at this
  · simp only [hany, Bool.false_eq_true, if_false]
    simp only [Bool.not_eq_true] at hany
    have hwidnot : wid ∉ s.openedWindows.map TrackedWindow.windowId :=
      not_mem_map_of_any_eq_false hany
    have hmapW : ((s.openedWindows ++
        [({ windowId := wid, tabs := [tid], openedAt := now } : TrackedWindow)]).map
          TrackedWindow.windowId).Nodup := by
      rw [List.map_append]
      simp only [List.map_cons, List.map_nil]
      rw [List.nodup_append]
      exact ⟨hndW, List.nodup_singleton wid, by
        intro a ha hb
        simp only [List.mem_singleton] at hb
        exact hwidnot (hb ▸ ha)⟩
    refine ⟨⟨?_, ?_, ?_⟩, hmapT, hmapW⟩
    · intro w' hw' tid' htid'
      rcases List.mem_append.mp hw' with h | h
      · rcases hinv1 w' h tid' htid' with ⟨t, ht, htt⟩
        exact ⟨t, List.mem_append_left _ ht, htt⟩
      · simp only [List.mem_singleton] at h
        subst h
        simp only [List.mem_singleton] at htid'
        subst htid'
        exact ⟨newTab, List.mem_append_right _ (List.mem_singleton_self _), hid, hwid⟩
    · intro t ht
      rcases List.mem_append.mp ht with h | h
      · rcases hinv2 t h with ⟨w, hw, hw1, hw2⟩
        exact ⟨w, List.mem_append_left _ hw, hw1, hw2⟩
      · simp only [List.mem_singleton] at h
        subst h
        exact ⟨{ windowId := wid, tabs := [tid], openedAt := now },
          List.mem_append_right _ (List.mem_singleton_self _), by simp [hwid], by simp [hid]⟩
    · intro w' hw'
      rcases List.mem_append.mp hw' with h | h
      · exact hinv3 w' h
      · simp only [List.mem_singleton] at h
        subst h
        simp

theorem exists_proj_mem_of_map_eq {α β : Type} {g : α → β} {l l' : List α}
    (h : l'.map g = l.map g) {x : α} (hx : x ∈ l) : ∃ x', x' ∈ l' ∧ g x' = g x := by
  have hmem : g x ∈ l'.map g := by
    rw [h]
    exact List.mem_map_of_mem g hx
  rcases List.mem_map.mp hmem with ⟨x', hx', hgx⟩
  exact ⟨x', hx', hgx⟩

/-- The in-place update branch of `addOrUpdateTab` preserves
well-formedness, provided every tracked tab carrying the updated tab id
already sits in the window the update names (so the overwrite of
`windowId` is not a move between windows). -/
theorem storeWF_update (now : Nat) (tid wid : Int) (url : String) (s : TMState)
    (hwf : StoreWF s)
    (hany : s.openedTabs.any (fun t => t.tabId == tid) = true)
    (hsame : ∀ t ∈ s.openedTabs, t.tabId = tid → t.windowId = wid) :
    StoreWF (TabManager.associateTabWithWindow now tid wid
      { s with openedTabs := (updateFirst (fun t => t.tabId == tid)
          (fun t => { t with url := url, windowId := wid, lastUpdated := now })
          s.openedTabs) }) := by
  obtain ⟨⟨hinv1, hinv2, hinv3⟩, hndT, hndW⟩ := hwf
  set tf := fun t : TrackedTab => { t with url := url, windowId := wid, lastUpdated := now }
    with htf_def
  set tabs' := updateFirst (fun t => t.tabId == tid) tf s.openedTabs with htabs_def
  have hproj : tabs'.map (fun t => (t.tabId, t.windowId)) =
      s.openedTabs.map (fun t => (t.tabId, t.windowId)) := by
    apply map_updateFirst
    intro y hy hpy
    have hyid : y.tabId = tid := by simpa using hpy
    have hywid : y.windowId = wid := hsame y hy hyid
    simp only [htf_def]
    rw [hywid]
  have htabs_map : tabs'.map TrackedTab.tabId = s.openedTabs.map TrackedTab.tabId :=
    map_updateFirst (fun y _ _ => rfl)
  have hndT' : (tabs'.map TrackedTab.tabId).Nodup := htabs_map ▸ hndT
  have trans1 : ∀ t ∈ s.openedTabs,
      ∃ t' ∈ tabs', t'.tabId = t.tabId ∧ t'.windowId = t.windowId := by
    intro t ht
    rcases exists_proj_mem_of_map_eq hproj ht with ⟨t', ht', hgt⟩
    simp only [Prod.mk.injEq] at hgt
    exact ⟨t', ht', hgt.1, hgt.2⟩
  have trans2 : ∀ t' ∈ tabs',
      ∃ t ∈ s.openedTabs, t.tabId = t'.tabId ∧ t.windowId = t'.windowId := by
    intro t' ht'
    rcases exists_proj_mem_of_map_eq hproj.symm ht' with ⟨t, ht, hgt⟩
    simp only [Prod.mk.injEq] at hgt
    exact ⟨t, ht, hgt.1, hgt.2⟩
  obtain ⟨t0, ht0, ht0id⟩ : ∃ t0 ∈ s.openedTabs, t0.tabId = tid := by
    rcases List.any_eq_true.mp hany with ⟨t0, ht0, hp⟩
    exact ⟨t0, ht0, by simpa using hp⟩
  have ht0w : t0.windowId = wid := hsame t0 ht0 ht0id
  obtain ⟨w0, hw0, hw0id, hw0mem⟩ := hinv2 t0 ht0
  have hanyW : s.openedWindows.any (fun w => w.windowId == wid) = true :=
    List.any_eq_true.mpr ⟨w0, hw0, by simp [hw0id, ht0w]⟩
  unfold TabManager.associateTabWithWindow
  simp only [hanyW, if_pos]
  set wf := fun w : TrackedWindow =>
    if tid ∈ w.tabs then w else { w with tabs := w.tabs ++ [tid] } with hwf_def
  have hwf_id : ∀ w : TrackedWindow, (wf w).windowId = w.windowId := by
    intro w
    by_cases h : tid ∈ w.tabs <;> simp [hwf_def, h]
  have hwf_tabs : ∀ (w : TrackedWindow) (x : Int), x ∈ w.tabs → x ∈ (wf w).tabs := by
    intro w x hx
    by_cases h : tid ∈ w.tabs <;> simp [hwf_def, h, hx]
  have hmapW : ((updateFirst (fun w => w.windowId == wid) wf s.openedWindows).map
      TrackedWindow.windowId).Nodup := by
    rw [map_updateFirst (fun y _ _ => hwf_id y)]
    exact hndW
  refine ⟨⟨?_, ?_, ?_⟩, hndT', hmapW⟩
  · intro w' hw' tid' htid'
    rcases mem_updateFirst_nodup hndW hw' with ⟨hmem, _⟩ | ⟨y, hy, hywid, hw'y⟩
    · rcases hinv1 w' hmem tid' htid' with ⟨t, ht, htt1, htt2⟩
      rcases trans1 t ht with ⟨t', ht', he1, he2⟩
      exact ⟨t', ht', by rw [he1, htt1], by rw [he2, htt2]⟩
    · rw [hw'y] at htid' ⊢
      by_cases hcase : tid' ∈ y.tabs
      · rcases hinv1 y hy tid' hcase with ⟨t, ht, htt1, htt2⟩
        rcases trans1 t ht with ⟨t', ht', he1, he2⟩
        exact ⟨t', ht', by rw [he1, htt1], by rw [hwf_id, he2, htt2]⟩
      · have htid : tid' = tid := by
          by_cases h2 : tid ∈ y.tabs
          · simp [hwf_def, h2] at htid'
            exact absurd htid' hcase
          · simp [hwf_def, h2, List.mem_append] at htid'
            rcases htid' with h | h
            · exact absurd h hcase
            · exact h
        rcases trans1 t0 ht0 with ⟨t', ht', he1, he2⟩
        refine ⟨t', ht', by rw [he1, ht0id, htid], ?_⟩
        rw [he2, ht0w, hwf_id, hywid]
  · intro t' ht'
    rcases trans2 t' ht' with ⟨t, ht, he1, he2⟩
    rcases hinv2 t ht with ⟨w, hw, hww1, hww2⟩
    rcases self_or_image_mem_updateFirst (p := fun w => w.windowId == wid) (f := wf) hw with
      h2 | h2
    · exact ⟨w, h2, by rw [hww1, he2], by rw [← he1]; exact hww2⟩
    · exact ⟨wf w, h2, by rw [hwf_id, hww1, he2], by rw [← he1]; exact hwf_tabs w _ hww2⟩
  · intro w' hw'
    rcases mem_of_mem_updateFirst hw' with h | ⟨y, hy, _, hw'y⟩
    · exact hinv3 w' h
    · rw [hw'y]
      have hyne := hinv3 y hy
      intro hnil
      apply hyne
      by_cases h2 : tid ∈ y.tabs
      · simpa [hwf_def, h2] using hnil
      · simp [hwf_def, h2] at hnil

/-- `removeClosedTab` preserves well-formedness: the removed tab is
detached from its window, and the window is dropped when it empties. -/
theorem storeWF_remove (tid : Int) (s : TMState) (hwf : StoreWF s) :
    StoreWF (TabManager.removeClosedTab tid s) := by
  obtain ⟨⟨hinv1, hinv2, hinv3⟩, hndT, hndW⟩ := hwf
  cases hfind : s.openedTabs.find? (fun t => t.tabId == tid) with
  | none =>
    unfold TabManager.removeClosedTab
    rw [hfind]
    exact ⟨⟨hinv1, hinv2, hinv3⟩, hndT, hndW⟩
  | some rt =>
    have hrt_mem : rt ∈ s.openedTabs := List.mem_of_find?_eq_some hfind
    have hrt_id : rt.tabId = tid := by
      have := List.find?_some hfind
      simpa using this
    set tabs' := removeFirst (fun t => t.tabId == tid) s.openedTabs with htabs_def
    have htabs_sub : List.Sublist tabs' s.openedTabs := sublist_removeFirst _
    have hndT' : (tabs'.map TrackedTab.tabId).Nodup := hndT.sublist (htabs_sub.map _)
    have hneT : ∀ t ∈ tabs', t.tabId ≠ tid := fun t ht =>
      proj_ne_of_mem_removeFirst hndT ht
    have hinT : ∀ t ∈ s.openedTabs, t.tabId ≠ tid → t ∈ tabs' := fun t ht hne =>
      mem_removeFirst_of_neg ht (by simpa using hne)
    have hrt_unique : ∀ t ∈ s.openedTabs, t.tabId = tid → t = rt := fun t ht hid =>
      eq_of_proj_eq_nodup hndT ht hrt_mem (by rw [hid, hrt_id])
    obtain ⟨w, hw_mem0, hw_id0, hw_tabmem0⟩ := hinv2 rt hrt_mem
    cases hfw : s.openedWindows.find? (fun w2 => w2.windowId == rt.windowId) with
    | none =>
      exfalso
      have := List.find?_eq_none.mp hfw w hw_mem0
      simp [hw_id0] at this
    | some w1 =>
      have hw1_mem : w1 ∈ s.openedWindows := List.mem_of_find?_eq_some hfw
      have hw1_id : w1.windowId = rt.windowId := by
        have := List.find?_some hfw
        simpa using this
      have hww1 : w1 = w := eq_of_proj_eq_nodup hndW hw1_mem hw_mem0 (by rw [hw1_id, hw_id0])
      have hw_unique : ∀ w2 ∈ s.openedWindows, w2.windowId = rt.windowId → w2 = w1 :=
        fun w2 hw2 hid => eq_of_proj_eq_nodup hndW hw2 hw1_mem (by rw [hid, hw1_id])
      unfold TabManager.removeClosedTab
      rw [hfind]
      dsimp only
      rw [hfw]
      dsimp only
      by_cases hfe : w1.tabs.filter (fun id => id != tid) = []
      · simp only [hfe, if_pos]
        set ws' := removeFirst (fun w2 => w2.windowId == rt.windowId) s.openedWindows
          with hws_def
        have hndW' : (ws'.map TrackedWindow.windowId).Nodup :=
          hndW.sublist ((sublist_removeFirst _).map _)
        refine ⟨⟨?_, ?_, ?_⟩, hndT', hndW'⟩
        · intro w' hw' tid' htid'
          have hw'_mem : w' ∈ s.openedWindows := mem_of_mem_removeFirst hw'
          have hw'_ne : w'.windowId ≠ rt.windowId := proj_ne_of_mem_removeFirst hndW hw'
          rcases hinv1 w' hw'_mem tid' htid' with ⟨t, ht, htt1, htt2⟩
          have htne : t.tabId ≠ tid := by
            intro hteq
            have := hrt_unique t ht hteq
            rw [this] at htt2
            exact hw'_ne htt2.symm
          exact ⟨t, hinT t ht htne, htt1, htt2⟩
        · intro t ht
          have ht_mem : t ∈ s.openedTabs := mem_of_mem_removeFirst ht
          have ht_ne : t.tabId ≠ tid := hneT t ht
          rcases hinv2 t ht_mem with ⟨w2, hw2, hw2a, hw2b⟩
          have hw2_ne : w2.windowId ≠ rt.windowId := by
            intro heq
            have hw2w1 : w2 = w1 := hw_unique w2 hw2 heq
            apply ht_ne
            have : t.tabId ∈ w1.tabs.filter (fun id => id != tid) ∨ t.tabId = tid := by
              by_cases hc : t.tabId = tid
              · exact Or.inr hc
              · refine Or.inl (List.mem_filter.mpr ⟨by rw [← hw2w1]; exact hw2b, ?_⟩)
                simpa using hc
            rcases this with h | h
            · rw [hfe] at h
              simp at h
            · exact h
          exact ⟨w2, mem_removeFirst_of_neg hw2 (by simpa using hw2_ne), hw2a, hw2b⟩
        · intro w' hw'
          exact hinv3 w' (mem_of_mem_removeFirst hw')
      · simp only [hfe, if_neg, if_false]
        set wfF := fun w2 : TrackedWindow =>
          { w2 with tabs := w2.tabs.filter (fun id => id != tid) } with hwfF_def
        have hwfF_id : ∀ w2 : TrackedWindow, (wfF w2).windowId = w2.windowId := fun _ => rfl
        set ws' := updateFirst (fun w2 => w2.windowId == rt.windowId) wfF s.openedWindows
          with hws_def
        have hndW' : (ws'.map TrackedWindow.windowId).Nodup := by
          rw [hws_def, map_updateFirst (fun y _ _ => hwfF_id y)]
          exact hndW
        refine ⟨⟨?_, ?_, ?_⟩, hndT', hndW'⟩
        · intro w' hw' tid' htid'
          rcases mem_updateFirst_nodup hndW hw' with ⟨hmem, hne⟩ | ⟨y, hy, hyid, hw'y⟩
          · rcases hinv1 w' hmem tid' htid' with ⟨t, ht, htt1, htt2⟩
            have htne : t.tabId ≠ tid := by
              intro hteq
              have := hrt_unique t ht hteq
              rw [this] at htt2
              exact hne htt2.symm
            exact ⟨t, hinT t ht htne, htt1, htt2⟩
          · rw [hw'y] at htid' ⊢
            simp only [hwfF_def, List.mem_filter] at htid'
            obtain ⟨htid_mem, htid_ne⟩ := htid'
            have htid_ne2 : tid' ≠ tid := by simpa using htid_ne
            rcases hinv1 y hy tid' htid_mem with ⟨t, ht, htt1, htt2⟩
            have htne : t.tabId ≠ tid := by rw [htt1]; exact htid_ne2
            exact ⟨t, hinT t ht htne, htt1, htt2⟩
        · intro t ht
          have ht_mem : t ∈ s.openedTabs := mem_of_mem_removeFirst ht
          have ht_ne : t.tabId ≠ tid := hneT t ht
          rcases hinv2 t ht_mem with ⟨w2, hw2, hw2a, hw2b⟩
          by_cases hc : w2.windowId = rt.windowId
          · refine ⟨wfF w2, ?_, hw2a, ?_⟩
            · exact image_mem_updateFirst_nodup hndW hw2 hc
            · simp only [hwfF_def, List.mem_filter]
              exact ⟨hw2b, by simpa using ht_ne⟩
          · exact ⟨w2, mem_updateFirst_of_proj_ne hw2 hc, hw2a, hw2b⟩
        · intro w' hw'
          rcases mem_updateFirst_nodup hndW hw' with ⟨hmem, _⟩ | ⟨y, hy, hyid, hw'y⟩
          · exact hinv3 w' hmem
          · rw [hw'y]
            have hyw1 : y = w1 := hw_unique y hy hyid
            simp only [hwfF_def]
            intro hnil
            rw [hyw1] at hnil
            exact hfe hnil

theorem storeWF_empty : StoreWF { openedTabs := [], openedWindows := [] } := by
  decide

theorem storeWF_replaceAll_foldl (now : Nat) :
    ∀ (L : List SyncTab) (acc : TMState), StoreWF acc →
      (∀ e ∈ L, e.tabId ∉ acc.openedTabs.map TrackedTab.tabId) →
      (L.map SyncTab.tabId).Nodup →
      StoreWF (L.foldl
        (fun acc e =>
          TabManager.associateTabWithWindow now e.tabId e.windowId
            { acc with openedTabs := acc.openedTabs ++ [TabManager.mkTab now e] })
        acc) := by
  intro L
  induction L with
  | nil => intro acc hacc _ _; exact hacc
  | cons e L ih =>
    intro acc hacc hnot hnd
    simp only [List.foldl_cons]
    simp only [List.map_cons, List.nodup_cons] at hnd
    apply ih
    · exact storeWF_insert now e.tabId e.windowId (TabManager.mkTab now e) rfl rfl acc hacc
        (hnot e (List.mem_cons_self e L))
    · intro e2 he2
      rw [associate_openedTabs]
      simp only [List.map_append, List.map_cons, List.map_nil, List.mem_append,
        List.mem_singleton]
      rintro (h | h)
      · exact hnot e2 (List.mem_cons_of_mem e he2) h
      · have he2id : e2.tabId ∈ L.map SyncTab.tabId := List.mem_map_of_mem _ he2
        rw [show (TabManager.mkTab now e).tabId = e.tabId from rfl] at h
        exact hnd.1 (h ▸ he2id)
    · exact hnd.2

/-- C5 (amended): the store mutators preserve well-formedness — the
bidirectional membership invariant together with key uniqueness of the
data model — except for the one case the counterexample above exhibits.
`removeClosedTab` always preserves it; `replaceAllTabs` establishes it
for any input list with distinct tab ids; and `addOrUpdateTab` preserves
it whenever every tracked tab with the given tab id already carries the
given window id (true in particular when the tab is new), i.e. whenever
the call is not a move of an existing tab to a different window. -/
theorem tabStore_wf_preservation :
    (∀ (s : TMState) (now : Nat) (tid wid : Int) (url : String),
        StoreWF s → (∀ t ∈ s.openedTabs, t.tabId = tid → t.windowId = wid) →
        StoreWF (TabManager.addOrUpdateTab now tid wid url s)) ∧
    (∀ (s : TMState) (tid : Int), StoreWF s → StoreWF (TabManager.removeClosedTab tid s)) ∧
    (∀ (s : TMState) (now : Nat) (L : List SyncTab), (L.map SyncTab.tabId).Nodup →
        StoreWF (TabManager.replaceAllTabs now L s)) := by
  refine ⟨?_, fun s tid h => storeWF_remove tid s h, ?_⟩
  · intro s now tid wid url hwf hsame
    unfold TabManager.addOrUpdateTab
    by_cases hany : s.openedTabs.any (fun t => t.tabId == tid)
    · simp only [hany, if_pos]
      exact storeWF_update now tid wid url s hwf hany hsame
    · simp only [Bool.not_eq_true] at hany
      simp only [hany, Bool.false_eq_true, if_false]
      exact storeWF_insert now tid wid _ rfl rfl s hwf
        (not_mem_map_of_any_eq_false hany)
  · intro s now L hnd
    unfold TabManager.replaceAllTabs
    exact storeWF_replaceAll_foldl now L { openedTabs := [], openedWindows := [] }
      storeWF_empty (by intro e _; simp) hnd

/-- C5 witness: the amended preservation theorem applied at concrete
inputs, each hypothesis discharged by evaluation. -/
theorem tabStore_wf_preservation_witness :
    StoreWF (TabManager.addOrUpdateTab 3 5 1 "x" { openedTabs := [], openedWindows := [] }) ∧
    StoreWF (TabManager.removeClosedTab 5
      (TabManager.addOrUpdateTab 3 5 1 "x" { openedTabs := [], openedWindows := [] })) ∧
    StoreWF (TabManager.replaceAllTabs 0 [⟨1, 1, "a"⟩, ⟨2, 1, "b"⟩]
      { openedTabs := [], openedWindows := [] }) :=
  ⟨tabStore_wf_preservation.1 { openedTabs := [], openedWindows := [] } 3 5 1 "x"
      (by decide) (by decide),
   tabStore_wf_preservation.2.1
      (TabManager.addOrUpdateTab 3 5 1 "x" { openedTabs := [], openedWindows := [] }) 5
      (by decide),
   tabStore_wf_preservation.2.2 { openedTabs := [], openedWindows := [] } 0
      [⟨1, 1, "a"⟩, ⟨2, 1, "b"⟩] (by decide)⟩

/-- The `data` object of a `POST /report-result` body: the fields the
handler inspects (`tabId`, `windowId`, `url` for an open/update report,
`closedTabId` for a close report).  Absent fields are `none`. -/
structure ReportData where
  tabId : Option Int
  windowId : Option Int
  url : Option String
  closedTabId : Option Int
deriving DecidableEq, Repr

/-- JavaScript truthiness of a possibly-absent number: `undefined` and
`0` are falsy, every other number is truthy. -/
def truthyInt : Option Int → Bool
  | none => false
  | some n => n != 0

/-- JavaScript truthiness of a possibly-absent string: `undefined` and
the empty string are falsy. -/
def truthyStr : Option String → Bool
  | none => false
  | some s => s != ""

/-- The rendezvous table `pendingTasks` of `index.js`, a `Map` from task
id to its pending wait, modelled as an association list carrying the
wait's absolute timeout deadline.  `Map.set` keeps at most one binding
per key, which `setWait` mirrors. -/
abbrev RState : Type := List (String × Nat)

/-- `pendingTasks.has(taskId)` / `pendingTasks.get(taskId)`: the deadline
of the pending wait for `id`, if one exists. -/
def lookupWait (id : String) (p : RState) : Option Nat :=
  (p.find? (fun e => e.1 == id)).map (fun e => e.2)

/-- `pendingTasks.delete(taskId)`: drop the binding for `id` (a `Map`
holds at most one). -/
def removeWait (id : String) (p : RState) : RState :=
  p.filter (fun e => e.1 != id)

/-- `pendingTasks.set(taskId, ...)`: bind `id`, replacing any previous
binding. -/
def setWait (id : String) (deadline : Nat) (p : RState) : RState :=
  (id, deadline) :: removeWait id p

/-- The default of `waitForTaskCompletion`'s `timeoutMs` parameter:
30000 ms (the spec's 30 time units); every call site uses the default. -/
def defaultTimeoutMs : Nat := 30000

/-- The registration performed by `waitForTaskCompletion(taskId,
timeoutMs)` at time `now`: store the resolver pair keyed by `taskId` and
arm a timeout that will fire no earlier than `now + timeoutMs`. -/
def waitForTaskCompletion (taskId : String) (now timeoutMs : Nat) (p : RState) : RState :=
  setWait taskId (now + timeoutMs) p

/-- A terminal response delivered to a blocked submitter: resolution
with the reported data, rejection with an error message, or the timeout
rejection (`new Error("Task timed out.")`). -/
inductive Outcome where
  | resolved (data : Option ReportData)
  | rejected (msg : String)
  | timedOut
deriving DecidableEq, Repr

/-- The rendezvous step of `POST /report-result`: if a pending wait for
`taskId` exists, clear its timeout, resolve it with the reported data
and delete the entry; otherwise do nothing.  Returns the new table and
the terminal response delivered, if any. -/
def resolvePendingTask (taskId : String) (data : Option ReportData) (p : RState) :
    RState × Option Outcome :=
  if (lookupWait taskId p).isSome then (removeWait taskId p, some (Outcome.resolved data))
  else (p, none)

/-- The rendezvous step of `POST /report-result/error`: if a pending
wait for `taskId` exists, clear its timeout, reject it with the reported
message and delete the entry; otherwise do nothing. -/
def rejectPendingTask (taskId : String) (msg : String) (p : RState) : RState × Option Outcome :=
  if (lookupWait taskId p).isSome then (removeWait taskId p, some (Outcome.rejected msg))
  else (p, none)

/-- The timeout callback armed by `waitForTaskCompletion`: if the wait
for `taskId` is still pending when the timer fires, reject it with the
timeout error and delete the entry; otherwise do nothing. -/
def fireTimeout (taskId : String) (p : RState) : RState × Option Outcome :=
  if (lookupWait taskId p).isSome then (removeWait taskId p, some Outcome.timedOut)
  else (p, none)

/-- One of the three terminal transitions that can target a registered
wait: a success report, a failure report, or the armed timer firing. -/
inductive ROp where
  | success (data : Option ReportData)
  | failure (msg : String)
  | timerFire
deriving DecidableEq, Repr

/-- Apply a terminal transition for task `id` to the rendezvous table. -/
def applyROp : ROp → String → RState → RState × Option Outcome
  | ROp.success d, id, p => resolvePendingTask id d p
  | ROp.failure m, id, p => rejectPendingTask id m p
  | ROp.timerFire, id, p => fireTimeout id p

theorem lookupWait_removeWait_self (id : String) (p : RState) :
    lookupWait id (removeWait id p) = none := by
  induction p with
  | nil => rfl
  | cons e es ih =>
    by_cases h : e.1 == id
    · have h2 : (e.1 != id) = false := by simpa using h
      simpa [removeWait, h2] using ih
    · have h2 : (e.1 != id) = true := by simpa using h
      simp only [removeWait, List.filter_cons, h2, if_pos]
      simp only [lookupWait, List.find?, h, removeWait] at ih ⊢
      exact ih

theorem applyROp_of_lookup_none {id : String} {p : RState} (o : ROp)
    (h : lookupWait id p = none) : applyROp o id p = (p, none) := by
  cases o <;>
    simp [applyROp, resolvePendingTask, rejectPendingTask, fireTimeout, h]

theorem applyROp_fst_of_fired {o : ROp} {id : String} {p : RState}
    (h : (applyROp o id p).2.isSome = true) : (applyROp o id p).1 = removeWait id p := by
  by_cases hl : (lookupWait id p).isSome
  · cases o <;>
      simp [applyROp, resolvePendingTask, rejectPendingTask, fireTimeout, hl]
  · rw [applyROp_of_lookup_none o (by
      cases h2 : lookupWait id p
      · rfl
      · exact absurd (by rw [h2]; rfl) hl)] at h
    simp at h

/-- C1: terminal transitions are mutually exclusive and idempotent on
the second attempt.  Once any of the three transitions (success report,
failure report, timeout firing) has produced a terminal response for a
task id — which removes the pending-wait entry — any later transition
for the same id is a silent no-op: it leaves the table unchanged and
delivers no second terminal response to the submitter. -/
theorem rendezvous_at_most_one_terminal :
    ∀ (p : RState) (id : String) (o1 o2 : ROp),
      (applyROp o1 id p).2.isSome = true →
      applyROp o2 id (applyROp o1 id p).1 = ((applyROp o1 id p).1, none) := by
  intro p id o1 o2 h
  rw [applyROp_fst_of_fired h]
  exact applyROp_of_lookup_none o2 (lookupWait_removeWait_self id p)

/-- C1 witness: a success report fires on a registered wait, and the
subsequent failure report for the same id is a no-op. -/
theorem rendezvous_at_most_one_terminal_witness :
    (applyROp (ROp.success none) "a" [("a", 30000)]).2.isSome = true ∧
    applyROp (ROp.failure "x") "a" (applyROp (ROp.success none) "a" [("a", 30000)]).1 =
      ((applyROp (ROp.success none) "a" [("a", 30000)]).1, none) :=
  ⟨by decide,
   rendezvous_at_most_one_terminal [("a", 30000)] "a" (ROp.success none) (ROp.failure "x")
     (by decide)⟩

/-- A timestamped event hitting the rendezvous table: a registration
(a submission calling `waitForTaskCompletion`), a success report, a
failure report, or an armed timer firing.  `time` is the event-loop time
at which the handler runs. -/
inductive TEvent where
  | register (id : String) (time : Nat) (timeoutMs : Nat)
  | reportSuccess (id : String) (time : Nat) (data : Option ReportData)
  | reportFailure (id : String) (time : Nat) (msg : String)
  | timerFire (id : String) (time : Nat)
deriving DecidableEq, Repr

/-- The task id an event targets. -/
def TEvent.targetId : TEvent → String
  | TEvent.register id _ _ => id
  | TEvent.reportSuccess id _ _ => id
  | TEvent.reportFailure id _ _ => id
  | TEvent.timerFire id _ => id

/-- Run one event against the rendezvous table, returning the new table
and the timestamped terminal response it delivers, if any. -/
def rstep : TEvent → RState → RState × Option (Nat × String × Outcome)
  | TEvent.register id t ms, p => (waitForTaskCompletion id t ms p, none)
  | TEvent.reportSuccess id t d, p =>
    let r := resolvePendingTask id d p
    (r.1, r.2.map (fun o => (t, id, o)))
  | TEvent.reportFailure id t m, p =>
    let r := rejectPendingTask id m p
    (r.1, r.2.map (fun o => (t, id, o)))
  | TEvent.timerFire id t, p =>
    let r := fireTimeout id p
    (r.1, r.2.map (fun o => (t, id, o)))

/-- Run a sequence of events, collecting the delivered terminal
responses in order. -/
def runEvents : List TEvent → RState → RState × List (Nat × String × Outcome)
  | [], p => (p, [])
  | e :: es, p =>
    let r := rstep e p
    let rest := runEvents es r.1
    (rest.1, r.2.toList ++ rest.2)

theorem lookupWait_removeWait_ne {id id2 : String} (hne : id2 ≠ id) (p : RState) :
    lookupWait id (removeWait id2 p) = lookupWait id p := by
  induction p with
  | nil => rfl
  | cons e es ih =>
    by_cases h : e.1 == id2
    · have heq : e.1 = id2 := by simpa using h
      have h2 : (e.1 != id2) = false := by simpa using h
      have h3 : (e.1 == id) = false := by
        rw [heq]
        simpa using hne
      have hhead : removeWait id2 (e :: es) = removeWait id2 es := by
        simp [removeWait, List.filter_cons, h2]
      rw [hhead, ih]
      have hskip : lookupWait id (e :: es) = lookupWait id es := by
        simp [lookupWait, List.find?, h3]
      rw [hskip]
    · have h2 : (e.1 != id2) = true := by simpa using h
      simp only [removeWait, List.filter_cons, h2, if_pos]
      by_cases h3 : e.1 == id
      · simp [lookupWait, List.find?, h3]
      · simp only [lookupWait, List.find?, h3, Bool.false_eq_true, if_false]
        simp only [removeWait, lookupWait] at ih
        exact ih

theorem lookupWait_setWait_self (id : String) (d : Nat) (p : RState) :
    lookupWait id (setWait id d p) = some d := by
  simp [setWait, lookupWait, List.find?]

theorem rstep_untargeted {e : TEvent} {id : String} (hne : e.targetId ≠ id) (p : RState) :
    lookupWait id (rstep e p).1 = lookupWait id p ∧
    ((rstep e p).2.toList.filter (fun o => o.2.1 == id)) = [] := by
  cases e with
  | register id2 t ms =>
    simp only [TEvent.targetId] at hne
    refine ⟨?_, by simp [rstep]⟩
    simp only [rstep, waitForTaskCompletion, setWait, lookupWait, List.find?]
    have h3 : (id2 == id) = false := by simpa using hne
    simp only [h3, Bool.false_eq_true, if_false]
    have := lookupWait_removeWait_ne hne p
    simpa [lookupWait] using this
  | reportSuccess id2 t d =>
    simp only [TEvent.targetId] at hne
    constructor
    · simp only [rstep, resolvePendingTask]
      by_cases h : (lookupWait id2 p).isSome <;>
        simp [h, lookupWait_removeWait_ne hne]
    · simp only [rstep, resolvePendingTask]
      by_cases h : (lookupWait id2 p).isSome <;>
        simp [h, hne]
  | reportFailure id2 t m =>
    simp only [TEvent.targetId] at hne
    constructor
    · simp only [rstep, rejectPendingTask]
      by_cases h : (lookupWait id2 p).isSome <;>
        simp [h, lookupWait_removeWait_ne hne]
    · simp only [rstep, rejectPendingTask]
      by_cases h : (lookupWait id2 p).isSome <;>
        simp [h, hne]
  | timerFire id2 t =>
    simp only [TEvent.targetId] at hne
    constructor
    · simp only [rstep, fireTimeout]
      by_cases h : (lookupWait id2 p).isSome <;>
        simp [h, lookupWait_removeWait_ne hne]
    · simp only [rstep, fireTimeout]
      by_cases h : (lookupWait id2 p).isSome <;>
        simp [h, hne]

theorem runEvents_untargeted {id : String} :
    ∀ (mid : List TEvent) (p : RState), (∀ e ∈ mid, e.targetId ≠ id) →
      lookupWait id (runEvents mid p).1 = lookupWait id p ∧
      ((runEvents mid p).2.filter (fun o => o.2.1 == id)) = [] := by
  intro mid
  induction mid with
  | nil => intro p _; exact ⟨rfl, rfl⟩
  | cons e es ih =>
    intro p h
    have he := rstep_untargeted (h e (List.mem_cons_self e es)) p
    have hes := ih (rstep e p).1 (fun e2 he2 => h e2 (List.mem_cons_of_mem e he2))
    simp only [runEvents]
    constructor
    · rw [hes.1, he.1]
    · rw [List.filter_append, he.2, hes.2]
      rfl

/-- C2: a wait registered with the default 30000 ms deadline that never
receives a success or failure report is rejected with the timeout error
when its timer fires — which, by the timer contract, is at or after the
deadline — and the pending-wait entry for the task id is absent from the
table immediately afterwards (no leak).  The run delivers exactly one
terminal response for that id: the timestamped timeout rejection. -/
theorem rendezvous_timeout_no_leak :
    ∀ (p0 : RState) (id : String) (t0 tf : Nat) (mid : List TEvent),
      (∀ e ∈ mid, e.targetId ≠ id) →
      t0 + defaultTimeoutMs ≤ tf →
      ((runEvents (TEvent.register id t0 defaultTimeoutMs :: (mid ++ [TEvent.timerFire id tf]))
          p0).2.filter (fun o => o.2.1 == id)) = [(tf, id, Outcome.timedOut)] ∧
      lookupWait id
        (runEvents (TEvent.register id t0 defaultTimeoutMs :: (mid ++ [TEvent.timerFire id tf]))
          p0).1 = none ∧
      t0 + defaultTimeoutMs ≤ tf := by
  intro p0 id t0 tf mid hmid htf
  have hreg : rstep (TEvent.register id t0 defaultTimeoutMs) p0 =
      (setWait id (t0 + defaultTimeoutMs) p0, none) := rfl
  have hlook1 : lookupWait id (setWait id (t0 + defaultTimeoutMs) p0) =
      some (t0 + defaultTimeoutMs) := lookupWait_setWait_self _ _ _
  have hmidrun := runEvents_untargeted mid (setWait id (t0 + defaultTimeoutMs) p0) hmid
  have hlook2 : lookupWait id (runEvents mid (setWait id (t0 + defaultTimeoutMs) p0)).1 =
      some (t0 + defaultTimeoutMs) := by rw [hmidrun.1, hlook1]
  have hfire : rstep (TEvent.timerFire id tf)
      (runEvents mid (setWait id (t0 + defaultTimeoutMs) p0)).1 =
      ((removeWait id (runEvents mid (setWait id (t0 + defaultTimeoutMs) p0)).1),
        some (tf, id, Outcome.timedOut)) := by
    simp [rstep, fireTimeout, hlook2]
  have hsplit :
      runEvents (TEvent.register id t0 defaultTimeoutMs :: (mid ++ [TEvent.timerFire id tf]))
        p0 =
      ((removeWait id (runEvents mid (setWait id (t0 + defaultTimeoutMs) p0)).1),
        (runEvents mid (setWait id (t0 + defaultTimeoutMs) p0)).2 ++
          [(tf, id, Outcome.timedOut)]) := by
    have happ : ∀ (l1 l2 : List TEvent) (p : RState),
        runEvents (l1 ++ l2) p =
          ((runEvents l2 (runEvents l1 p).1).1,
            (runEvents l1 p).2 ++ (runEvents l2 (runEvents l1 p).1).2) := by
      intro l1
      induction l1 with
      | nil => intro l2 p; simp [runEvents]
      | cons e es ih =>
        intro l2 p
        simp only [List.cons_append, runEvents]
        simp only [List.append_eq]
        rw [ih]
        simp
    simp only [runEvents, hreg]
    rw [happ]
    rw [show runEvents [TEvent.timerFire id tf]
        (runEvents mid (setWait id (t0 + defaultTimeoutMs) p0)).1 =
      ((rstep (TEvent.timerFire id tf)
          (runEvents mid (setWait id (t0 + defaultTimeoutMs) p0)).1).1,
        (rstep (TEvent.timerFire id tf)
          (runEvents mid (setWait id (t0 + defaultTimeoutMs) p0)).1).2.toList ++ []) from rfl]
    rw [hfire]
    simp
  refine ⟨?_, ?_, htf⟩
  · rw [hsplit]
    simp only [List.filter_append, hmidrun.2]
    simp
  · rw [hsplit]
    exact lookupWait_removeWait_self _ _

/-- C2 witness: a wait for task id a registered at time 0, an unrelated
report for task id b in between, and the timer firing exactly at the
30000 ms deadline: the run delivers exactly the timeout rejection for a
and leaves no entry for a. -/
theorem rendezvous_timeout_no_leak_witness :
    ((runEvents (TEvent.register "a" 0 defaultTimeoutMs ::
        ([TEvent.reportSuccess "b" 5 none] ++ [TEvent.timerFire "a" 30000]))
        []).2.filter (fun o => o.2.1 == "a")) = [(30000, "a", Outcome.timedOut)] ∧
    lookupWait "a"
      (runEvents (TEvent.register "a" 0 defaultTimeoutMs ::
        ([TEvent.reportSuccess "b" 5 none] ++ [TEvent.timerFire "a" 30000]))
        []).1 = none ∧
    0 + defaultTimeoutMs ≤ 30000 :=
  rendezvous_timeout_no_leak [] "a" 0 30000 [TEvent.reportSuccess "b" 5 none]
    (by decide) (by decide)

/-- The persistence side of `TabManager`: the `saveInProgress` /
`saveQueued` flags and the asynchronous `fs.writeFile` write-back.
`mem` abstracts the current in-memory collections as a version counter
(every mutating method bumps it before calling `scheduleSave`);
`saveData` snapshots whatever `mem` is when it runs.  `inFlight` holds
the snapshots handed to `fs.writeFile` whose completion callbacks have
not yet run; `started` logs every snapshot ever handed to
`fs.writeFile`, in order. -/
structure SaveState where
  mem : Nat
  saveInProgress : Bool
  saveQueued : Bool
  inFlight : List Nat
  started : List Nat
deriving DecidableEq, Repr

/-- `TabManager.saveData()` (the call, not its callback): serialize the
current in-memory state and hand it to `fs.writeFile`. -/
def saveData (s : SaveState) : SaveState :=
  { s with inFlight := s.inFlight ++ [s.mem], started := s.started ++ [s.mem] }

/-- `TabManager.scheduleSave()`: if a write is in flight, only set
`saveQueued`; otherwise set `saveInProgress` and start `saveData()`. -/
def scheduleSave (s : SaveState) : SaveState :=
  if s.saveInProgress then { s with saveQueued := true }
  else saveData { s with saveInProgress := true }

/-- The `fs.writeFile` completion callback inside `saveData`: the oldest
in-flight write finishes; clear `saveInProgress`, and if a save was
queued while the write was in flight, clear `saveQueued` and call
`scheduleSave()` again. -/
def saveComplete (s : SaveState) : SaveState :=
  let s1 := { s with inFlight := s.inFlight.drop 1, saveInProgress := false }
  if s1.saveQueued then scheduleSave { s1 with saveQueued := false } else s1

/-- A mutating store call (`addOrUpdateTab`, `removeClosedTab`,
`replaceAllTabs`): change the in-memory state, then `scheduleSave()`. -/
def mutateStore (s : SaveState) : SaveState :=
  scheduleSave { s with mem := s.mem + 1 }

/-- `k` consecutive mutating calls. -/
def mutateN : Nat → SaveState → SaveState
  | 0, s => s
  | n + 1, s => mutateN n (mutateStore s)

/-- The `TabManager` constructor's persistence state: nothing in flight,
no flags set. -/
def SaveState.init : SaveState :=
  { mem := 0, saveInProgress := false, saveQueued := false, inFlight := [], started := [] }

/-- States reachable from start by mutations and write completions (a
completion can only run while a write is in flight). -/
inductive SaveReachable : SaveState → Prop
  | init : SaveReachable SaveState.init
  | mutate {s : SaveState} : SaveReachable s → SaveReachable (mutateStore s)
  | complete {s : SaveState} : SaveReachable s → s.inFlight ≠ [] →
      SaveReachable (saveComplete s)

/-- The flag discipline: `saveInProgress` is set exactly while one write
is in flight, and `saveQueued` is only ever set while a write is in
flight. -/
def SaveInv (s : SaveState) : Prop :=
  s.inFlight.length = (if s.saveInProgress then 1 else 0) ∧
    (s.saveQueued = true → s.saveInProgress = true)

theorem saveInv_reachable : ∀ {s : SaveState}, SaveReachable s → SaveInv s := by
  intro s h
  induction h with
  | init => exact ⟨rfl, fun h => by cases h⟩
  | mutate _ ih =>
    rename_i s0 _
    obtain ⟨ih1, ih2⟩ := ih
    by_cases hp : s0.saveInProgress
    · constructor
      · simp [mutateStore, scheduleSave, hp, ih1]
      · intro _
        simp [mutateStore, scheduleSave, hp]
    · have hp2 : s0.saveInProgress = false := by simpa using hp
      constructor
      · simp [mutateStore, scheduleSave, saveData, hp2, ih1]
      · intro hq
        simp [mutateStore, scheduleSave, saveData, hp2] at hq ⊢
  | complete _ hne ih =>
    rename_i s0 _
    obtain ⟨ih1, ih2⟩ := ih
    have hp : s0.saveInProgress = true := by
      by_cases h2 : s0.saveInProgress
      · exact h2
      · exfalso
        rw [if_neg h2] at ih1
        exact hne (List.length_eq_zero.mp ih1)
    rw [if_pos hp] at ih1
    have hdrop : s0.inFlight.drop 1 = [] := by
      rw [List.drop_eq_nil_iff, ih1]
    by_cases hq : s0.saveQueued
    · constructor
      · simp [saveComplete, hq, scheduleSave, saveData, hdrop]
      · intro _
        simp [saveComplete, hq, scheduleSave, saveData]
    · have hq2 : s0.saveQueued = false := by simpa using hq
      constructor
      · simp [saveComplete, hq2, hdrop]
      · intro hcontra
        simp [saveComplete, hq2] at hcontra

theorem mutateStore_inProgress {s : SaveState} (h : s.saveInProgress = true) :
    mutateStore s = { s with mem := s.mem + 1, saveQueued := true } := by
  simp [mutateStore, scheduleSave, h]

theorem mutateN_inProgress :
    ∀ (k : Nat) (s : SaveState), s.saveInProgress = true →
      mutateN (k + 1) s = { s with mem := s.mem + (k + 1), saveQueued := true } := by
  intro k
  induction k with
  | zero =>
    intro s h
    show mutateN 0 (mutateStore s) = _
    rw [mutateN, mutateStore_inProgress h]
  | succ n ih =>
    intro s h
    show mutateN (n + 1) (mutateStore s) = _
    rw [mutateStore_inProgress h]
    rw [ih { s with mem := s.mem + 1, saveQueued := true } h]
    cases s
    simp only [SaveState.mk.injEq, and_true, true_and]
    omega

/-- C9: write-backs are coalesced single-flight-with-latest-superseding.
In every reachable persistence state at most one write is in flight; and
whenever `k + 1` mutations arrive while a write is in flight, no new
write starts during those mutations, and the completion of the in-flight
write starts exactly one follow-up write whose snapshot is the latest
in-memory state (the state after all `k + 1` mutations) — not one write
per mutation. -/
theorem save_coalescing :
    ∀ s : SaveState, SaveReachable s →
      s.inFlight.length ≤ 1 ∧
      ∀ k : Nat, s.saveInProgress = true →
        (mutateN (k + 1) s).started = s.started ∧
        (saveComplete (mutateN (k + 1) s)).started = s.started ++ [s.mem + (k + 1)] ∧
        (saveComplete (mutateN (k + 1) s)).inFlight = [s.mem + (k + 1)] := by
  intro s hreach
  obtain ⟨hinv1, _⟩ := saveInv_reachable hreach
  constructor
  · rw [hinv1]
    by_cases h : s.saveInProgress <;> simp [h]
  · intro k hp
    rw [mutateN_inProgress k s hp]
    rw [if_pos hp] at hinv1
    have hdrop : s.inFlight.drop 1 = [] := by
      rw [List.drop_eq_nil_iff, hinv1]
    refine ⟨rfl, ?_, ?_⟩
    · simp [saveComplete, scheduleSave, saveData, hdrop]
    · simp [saveComplete, scheduleSave, saveData, hdrop]

/-- C9 witness: from the reachable state with one write in flight (one
mutation after start-up), two further mutations produce no new write,
and the completion starts exactly one follow-up write carrying the
latest state. -/
theorem save_coalescing_witness :
    (mutateStore SaveState.init).inFlight.length ≤ 1 ∧
    (mutateN 2 (mutateStore SaveState.init)).started = (mutateStore SaveState.init).started ∧
    (saveComplete (mutateN 2 (mutateStore SaveState.init))).started =
      (mutateStore SaveState.init).started ++ [(mutateStore SaveState.init).mem + 2] ∧
    (saveComplete (mutateN 2 (mutateStore SaveState.init))).inFlight =
      [(mutateStore SaveState.init).mem + 2] := by
  have h := save_coalescing (mutateStore SaveState.init)
    (SaveReachable.mutate SaveReachable.init)
  exact ⟨h.1, (h.2 1 rfl).1, (h.2 1 rfl).2.1, (h.2 1 rfl).2.2⟩

/-- The request body of `POST /add-task`: `taskId`, `command`, `url`,
`jsFunction`, `tabId`, all optional except `command`. -/
structure AddTaskReq where
  taskId : Option String
  command : String
  url : Option String
  jsFunction : Option String
  tabId : Option Int
deriving DecidableEq, Repr

/-- The combined mutable state of `index.js`: `taskQueue.queue`, the
`pendingTasks` rendezvous table, and the `tabManager` collections. -/
structure ServerState where
  queue : List Task
  pending : RState
  tabs : TMState
deriving DecidableEq, Repr

/-- The server with nothing queued, pending or tracked. -/
def ServerState.empty : ServerState :=
  { queue := [], pending := ([] : List (String × Nat)),
    tabs := { openedTabs := [], openedWindows := [] } }

/-- The immediate outcome of a submission endpoint: a 400 validation
rejection, a 409 conflict rejection, or acceptance — the task is
enqueued, a rendezvous wait is registered, and the HTTP response is
deferred until the wait resolves, rejects or times out. -/
inductive SubmitResult where
  | validationError (msg : String)
  | conflictError (msg : String)
  | awaiting (task : Task)
deriving DecidableEq, Repr

/-- `x || null` on a possibly-absent number: `undefined` and `0` are
falsy and become `null`. -/
def orNullInt (o : Option Int) : Option Int :=
  match o with
  | some n => if n != 0 then some n else none
  | none => none

/-- `x || null` on a possibly-absent string: `undefined` and the empty
string become `null`. -/
def orNullStr (o : Option String) : Option String :=
  match o with
  | some s => if s != "" then some s else none
  | none => none

/-- The `validCommands` array of the `/add-task` handler, exactly as in
the source. -/
def validCommands : List String :=
  ["open-tab", "close-tab", "find-tab", "execute-js"]

/-- `taskId || task- + Date.now()`: keep a truthy caller-supplied id,
generate one otherwise. -/
def buildTaskId (now : Nat) (taskId : Option String) : String :=
  match taskId with
  | some tid => if tid != "" then tid else "task-" ++ toString now
  | none => "task-" ++ toString now

/-- The task object `/add-task` constructs: generated or supplied id,
the command, and the optional fields defaulted to `null`. -/
def buildTask (now : Nat) (req : AddTaskReq) : Task :=
  { taskId := buildTaskId now req.taskId, command := req.command,
    tabId := orNullInt req.tabId, url := orNullStr req.url,
    jsFunction := orNullStr req.jsFunction }

/-- `POST /add-task`: reject with 400 unless `command` is in
`validCommands`; otherwise build the task (`buildTask`), enqueue it, and
register a rendezvous wait with the default timeout.  `now` stands for
`Date.now()`. -/
def postAddTask (now : Nat) (req : AddTaskReq) (s : ServerState) :
    ServerState × SubmitResult :=
  if !(validCommands.contains req.command) then
    (s, SubmitResult.validationError ("Invalid command: " ++ req.command))
  else
    let task := buildTask now req
    let q2 := TaskQueue.addTask s.queue task
    let p2 := waitForTaskCompletion task.taskId now defaultTimeoutMs s.pending
    ({ s with queue := q2, pending := p2 }, SubmitResult.awaiting task)

/-- `POST /switch-tab`: reject with 400 when `tabId` is not a number;
reject with 409 when the queue already holds a switch-tab task for the
same `tabId`; otherwise enqueue a fresh switch-tab task and register a
rendezvous wait with the default timeout. -/
def postSwitchTab (now : Nat) (tabId : Option Int) (s : ServerState) :
    ServerState × SubmitResult :=
  match tabId with
  | none => (s, SubmitResult.validationError "Invalid or missing tabId. It should be a number.")
  | some n =>
    if (s.queue.find? (fun t => t.command == "switch-tab" && t.tabId == some n)).isSome then
      (s, SubmitResult.conflictError
        ("A switch-tab task for tabId " ++ toString n ++ " is already pending."))
    else
      let newTaskId := "switch-tab-" ++ toString n ++ "-" ++ toString now
      let task : Task :=
        { taskId := newTaskId, command := "switch-tab", tabId := some n,
          url := none, jsFunction := none }
      let q2 := TaskQueue.addTask s.queue task
      let p2 := waitForTaskCompletion newTaskId now defaultTimeoutMs s.pending
      ({ s with queue := q2, pending := p2 }, SubmitResult.awaiting task)

/-- The request body of `POST /report-result`. -/
structure ReportReq where
  taskId : String
  data : Option ReportData
deriving DecidableEq, Repr

/-- `POST /report-result`: if the data carries truthy `tabId`,
`windowId` and `url`, upsert the tab; if it carries a truthy
`closedTabId`, remove that tab; finally resolve the pending wait for
`taskId` if one exists.  Returns the new state and the terminal response
delivered to the submitter, if any. -/
def postReportResult (now : Nat) (req : ReportReq) (s : ServerState) :
    ServerState × Option Outcome :=
  let tabs1 :=
    match req.data with
    | some d =>
      if truthyInt d.tabId && truthyInt d.windowId && truthyStr d.url then
        TabManager.addOrUpdateTab now (d.tabId.getD 0) (d.windowId.getD 0) (d.url.getD "")
          s.tabs
      else s.tabs
    | none => s.tabs
  let tabs2 :=
    match req.data with
    | some d =>
      if truthyInt d.closedTabId then TabManager.removeClosedTab (d.closedTabId.getD 0) tabs1
      else tabs1
    | none => tabs1
  let r := resolvePendingTask req.taskId req.data s.pending
  ({ s with tabs := tabs2, pending := r.1 }, r.2)

/-- `POST /report-result/error`: reject the pending wait for `taskId`
with the reported message, if one exists. -/
def postReportError (req : ReportReq) (msg : String) (s : ServerState) :
    ServerState × Option Outcome :=
  let r := rejectPendingTask req.taskId msg s.pending
  ({ s with pending := r.1 }, r.2)

theorem postAddTask_valid {now : Nat} {req : AddTaskReq} {s : ServerState}
    (hmem : req.command ∈ validCommands) :
    postAddTask now req s =
      (ServerState.mk (TaskQueue.addTask s.queue (buildTask now req))
        (waitForTaskCompletion (buildTask now req).taskId now defaultTimeoutMs s.pending)
        s.tabs,
       SubmitResult.awaiting (buildTask now req)) := by
  have hcond : (!(validCommands.contains req.command)) = false := by simp [hmem]
  simp [postAddTask, hcond, hmem]

theorem postAddTask_invalid {now : Nat} {req : AddTaskReq} {s : ServerState}
    (hmem : req.command ∉ validCommands) :
    postAddTask now req s =
      (s, SubmitResult.validationError ("Invalid command: " ++ req.command)) := by
  have hcond : (!(validCommands.contains req.command)) = true := by simpa using hmem
  simp [postAddTask, hcond, hmem]

/-- C3: a switch-tab submission for a tab id that already has a pending
switch-tab task in the queue is rejected with the 409 conflict error and
the whole server state — in particular the queue — is left unchanged, so
no duplicate task is enqueued and no wait is registered. -/
theorem switchTab_conflict_rejected :
    ∀ (s : ServerState) (n : Int) (now : Nat),
      (∃ t ∈ s.queue, t.command = "switch-tab" ∧ t.tabId = some n) →
      (postSwitchTab now (some n) s).1 = s ∧
      ∃ m, (postSwitchTab now (some n) s).2 = SubmitResult.conflictError m := by
  intro s n now hex
  obtain ⟨t, ht, hc, hid⟩ := hex
  have hfind : (s.queue.find? (fun t => t.command == "switch-tab" && t.tabId == some n)).isSome :=
    List.find?_isSome.mpr ⟨t, ht, by simp [hc, hid]⟩
  refine ⟨?_, "A switch-tab task for tabId " ++ toString n ++ " is already pending.", ?_⟩
  · simp [postSwitchTab, hfind]
  · simp [postSwitchTab, hfind]

/-- A queued switch-tab task for tab 5, and a server state holding it:
the concrete input of the C3 witness. -/
def sampleSwitchTask : Task :=
  { taskId := "switch-tab-5-0", command := "switch-tab", tabId := some 5,
    url := none, jsFunction := none }

/-- Server state whose queue already holds `sampleSwitchTask`. -/
def sampleSwitchState : ServerState :=
  { queue := [sampleSwitchTask], pending := ([] : List (String × Nat)),
    tabs := { openedTabs := [], openedWindows := [] } }

/-- C3 witness: a queue holding one switch-tab task for tab 5 rejects a
second switch-tab submission for tab 5 and is unchanged. -/
theorem switchTab_conflict_rejected_witness :
    (postSwitchTab 9 (some 5) sampleSwitchState).1 = sampleSwitchState ∧
    ∃ m, (postSwitchTab 9 (some 5) sampleSwitchState).2 = SubmitResult.conflictError m :=
  switchTab_conflict_rejected sampleSwitchState 5 9 (by decide)

/-- The C7 concrete input: an open-tab submission with no `url`. -/
def openTabNoUrlReq : AddTaskReq :=
  { taskId := none, command := "open-tab", url := none, jsFunction := none, tabId := none }

/-- The task `/add-task` builds from `openTabNoUrlReq` at time 0. -/
def openTabNoUrlTask : Task :=
  { taskId := "task-0", command := "open-tab", tabId := none, url := none, jsFunction := none }

/-- C7 counterexample: an open-tab submission with no `url` is not
rejected — `/add-task` validates only the command, so the task is
accepted, enqueued (queue length grows from 0 to 1, `url` stored as
null) and a rendezvous wait is registered for it. -/
theorem addTask_openTab_missing_url_enqueued :
    (postAddTask 0 openTabNoUrlReq ServerState.empty).1.queue.length = 1 ∧
    (postAddTask 0 openTabNoUrlReq ServerState.empty).2 =
      SubmitResult.awaiting openTabNoUrlTask ∧
    (lookupWait "task-0" (postAddTask 0 openTabNoUrlReq ServerState.empty).1.pending).isSome =
      true := by
  decide

/-- C7 (amended): `/add-task` performs no per-command field validation —
an open-tab submission whose `url` is absent is accepted rather than
rejected: the built task (with `url` null) reaches the queue and a
rendezvous wait with the default timeout is registered for it. -/
theorem addTask_openTab_missing_url_accepted :
    ∀ (s : ServerState) (now : Nat) (req : AddTaskReq),
      req.command = "open-tab" → req.url = none →
      (postAddTask now req s).2 = SubmitResult.awaiting (buildTask now req) ∧
      (buildTask now req).url = none ∧
      (postAddTask now req s).1.queue = s.queue ++ [buildTask now req] ∧
      lookupWait (buildTask now req).taskId (postAddTask now req s).1.pending =
        some (now + defaultTimeoutMs) := by
  intro s now req hc hu
  have hmem : req.command ∈ validCommands := by
    rw [hc]
    decide
  rw [postAddTask_valid hmem]
  refine ⟨rfl, ?_, rfl, ?_⟩
  · simp [buildTask, hu, orNullStr]
  · exact lookupWait_setWait_self _ _ _

/-- C7 witness: the amended theorem at the concrete url-less open-tab
submission. -/
theorem addTask_openTab_missing_url_accepted_witness :
    (postAddTask 3 openTabNoUrlReq ServerState.empty).2 =
      SubmitResult.awaiting (buildTask 3 openTabNoUrlReq) ∧
    (buildTask 3 openTabNoUrlReq).url = none ∧
    (postAddTask 3 openTabNoUrlReq ServerState.empty).1.queue =
      ServerState.empty.queue ++ [buildTask 3 openTabNoUrlReq] ∧
    lookupWait (buildTask 3 openTabNoUrlReq).taskId
        (postAddTask 3 openTabNoUrlReq ServerState.empty).1.pending =
      some (3 + defaultTimeoutMs) :=
  addTask_openTab_missing_url_accepted ServerState.empty 3 openTabNoUrlReq rfl rfl

/-- The C8 concrete input: a switch-tab submission sent to
`/add-task`. -/
def addSwitchTabReq : AddTaskReq :=
  { taskId := none, command := "switch-tab", url := none, jsFunction := none, tabId := some 5 }

/-- C8 counterexample: `switch-tab`, although a member of the spec's
declared command enum, is rejected by `/add-task` with the validation
error — the handler's `validCommands` array omits it (the command is
served only by the dedicated `/switch-tab` endpoint). -/
theorem addTask_rejects_switch_tab :
    postAddTask 0 addSwitchTabReq ServerState.empty =
      (ServerState.empty, SubmitResult.validationError "Invalid command: switch-tab") := by
  decide

/-- C8 (amended): `/add-task` accepts exactly the four commands of its
`validCommands` array — open-tab, close-tab, find-tab, execute-js.  A
submission whose command is in that set passes command validation and is
enqueued awaiting its result; any other command — including switch-tab,
which is served by the dedicated `/switch-tab` endpoint — is rejected
with the validation error before anything is enqueued, the state left
unchanged. -/
theorem addTask_valid_commands :
    validCommands = ["open-tab", "close-tab", "find-tab", "execute-js"] ∧
    ∀ (s : ServerState) (now : Nat) (req : AddTaskReq),
      (req.command ∈ validCommands →
        (postAddTask now req s).2 = SubmitResult.awaiting (buildTask now req) ∧
        (postAddTask now req s).1.queue = s.queue ++ [buildTask now req]) ∧
      (req.command ∉ validCommands →
        (postAddTask now req s).1 = s ∧
        (postAddTask now req s).2 =
          SubmitResult.validationError ("Invalid command: " ++ req.command)) := by
  refine ⟨rfl, ?_⟩
  intro s now req
  constructor
  · intro hmem
    rw [postAddTask_valid hmem]
    exact ⟨rfl, rfl⟩
  · intro hmem
    rw [postAddTask_invalid hmem]
    exact ⟨rfl, rfl⟩

/-- A close-tab submission, inside the valid set: the accepted case of
the C8 witness. -/
def addCloseTabReq : AddTaskReq :=
  { taskId := some "t1", command := "close-tab", url := none, jsFunction := none,
    tabId := some 4 }

/-- C8 witness: the amended theorem at concrete inputs — close-tab (in
the set) is accepted and enqueued; switch-tab (outside the set) is
rejected with the validation error and the state is unchanged. -/
theorem addTask_valid_commands_witness :
    validCommands = ["open-tab", "close-tab", "find-tab", "execute-js"] ∧
    ((postAddTask 0 addCloseTabReq ServerState.empty).2 =
        SubmitResult.awaiting (buildTask 0 addCloseTabReq) ∧
      (postAddTask 0 addCloseTabReq ServerState.empty).1.queue =
        ServerState.empty.queue ++ [buildTask 0 addCloseTabReq]) ∧
    (postAddTask 0 addSwitchTabReq ServerState.empty).1 = ServerState.empty ∧
    (postAddTask 0 addSwitchTabReq ServerState.empty).2 =
      SubmitResult.validationError ("Invalid command: " ++ "switch-tab") :=
  ⟨addTask_valid_commands.1,
   (addTask_valid_commands.2 ServerState.empty 0 addCloseTabReq).1 (by decide),
   ((addTask_valid_commands.2 ServerState.empty 0 addSwitchTabReq).2 (by decide)).1,
   ((addTask_valid_commands.2 ServerState.empty 0 addSwitchTabReq).2 (by decide)).2⟩

theorem removeClosedTab_openedTabs_subset (tid : Int) (st : TMState) :
    ∀ t ∈ (TabManager.removeClosedTab tid st).openedTabs, t ∈ st.openedTabs := by
  intro t ht
  unfold TabManager.removeClosedTab at ht
  cases hfind : st.openedTabs.find? (fun t2 => t2.tabId == tid) with
  | none =>
    rw [hfind] at ht
    exact ht
  | some rt =>
    rw [hfind] at ht
    exact mem_of_mem_removeFirst ht

/-- C10: when any of the reported `tabId`, `windowId`, `url` is absent
or falsy (`tabId` 0, empty `url`, a missing field), `/report-result`
applies no tab upsert: every tab record present afterwards was already
present before (none inserted or updated), and — when the data carries
no truthy closed-tab marker either — the tab/window store is left
completely unchanged.  The pending wait for the task id, if present, is
still resolved with exactly the reported data and its entry removed. -/
theorem reportResult_no_upsert_when_guard_fails :
    ∀ (s : ServerState) (now : Nat) (taskId : String) (d : ReportData),
      (truthyInt d.tabId && truthyInt d.windowId && truthyStr d.url) = false →
      (∀ t ∈ (postReportResult now { taskId := taskId, data := some d } s).1.tabs.openedTabs,
          t ∈ s.tabs.openedTabs) ∧
      (truthyInt d.closedTabId = false →
        (postReportResult now { taskId := taskId, data := some d } s).1.tabs = s.tabs) ∧
      ((lookupWait taskId s.pending).isSome = true →
        (postReportResult now { taskId := taskId, data := some d } s).2 =
          some (Outcome.resolved (some d)) ∧
        lookupWait taskId
          (postReportResult now { taskId := taskId, data := some d } s).1.pending = none) := by
  intro s now taskId d hguard
  refine ⟨?_, ?_, ?_⟩
  · intro t ht
    simp only [postReportResult, hguard, Bool.false_eq_true, if_false] at ht
    by_cases hc : truthyInt d.closedTabId
    · simp only [hc, if_pos] at ht
      exact removeClosedTab_openedTabs_subset _ _ t ht
    · simp only [Bool.not_eq_true] at hc
      simp only [hc, Bool.false_eq_true, if_false] at ht
      exact ht
  · intro hc
    simp [postReportResult, hguard, hc]
  · intro hpend
    constructor
    · simp [postReportResult, resolvePendingTask, hpend]
    · simp only [postReportResult, resolvePendingTask, hpend, if_pos]
      exact lookupWait_removeWait_self _ _

/-- The C10 concrete report data: `tabId` 0 is falsy, so the upsert
guard fails; no closed-tab marker. -/
def sampleReportData : ReportData :=
  { tabId := some 0, windowId := some 1, url := some "x", closedTabId := none }

/-- The C10 concrete report request for task t1. -/
def sampleReportReq : ReportReq :=
  { taskId := "t1", data := some sampleReportData }

/-- The C10 concrete server state: a pending wait for t1, empty store. -/
def sampleReportState : ServerState :=
  { queue := [], pending := [("t1", 30000)],
    tabs := { openedTabs := [], openedWindows := [] } }

/-- C10 witness: a report with `tabId` 0 (falsy) and no closed-tab
marker leaves the store unchanged while still resolving the registered
wait with the reported data. -/
theorem reportResult_no_upsert_when_guard_fails_witness :
    (∀ t ∈ (postReportResult 2 sampleReportReq sampleReportState).1.tabs.openedTabs,
        t ∈ sampleReportState.tabs.openedTabs) ∧
    (truthyInt sampleReportData.closedTabId = false →
      (postReportResult 2 sampleReportReq sampleReportState).1.tabs =
        sampleReportState.tabs) ∧
    ((lookupWait "t1" sampleReportState.pending).isSome = true →
      (postReportResult 2 sampleReportReq sampleReportState).2 =
        some (Outcome.resolved (some sampleReportData)) ∧
      lookupWait "t1" (postReportResult 2 sampleReportReq sampleReportState).1.pending =
        none) :=
  reportResult_no_upsert_when_guard_fails sampleReportState 2 "t1" sampleReportData (by decide)

end Automation
